import Mathlib

/-!
Verification of the `conan-check-updates` update-resolution engine
(`src/conan_check_updates/__main__.py`).

Strings of the Python program are modelled as `List Char`.  Definitions whose
doc comment starts with `Modelled from the spec:` embed parts of the
repository (the `version`, `conan` and `filter` modules) that are only
imported by `__main__.py`; everything else is translated directly from
`__main__.py`.
-/

namespace ConanCheckUpdates

/-- The ANSI escape character `\x1b` (`\033`). -/
def escChar : Char := Char.ofNat 27

/-- `Colors.RED` = `"\033[31m"` (`__main__.py`, class `Colors`). -/
def colorRED : List Char := [escChar, '[', '3', '1', 'm']

/-- `Colors.RESET` = `"\033[0m"` (`__main__.py`, class `Colors`). -/
def colorRESET : List Char := [escChar, '[', '0', 'm']

/-- `Colors.BOLD` = `"\033[1m"` (`__main__.py`, class `Colors`). -/
def colorBOLD : List Char := [escChar, '[', '1', 'm']

/-- `colored(txt, *colors)` = `"".join((*colors, txt, Colors.RESET))`. -/
def colored (txt : List Char) (colors : List (List Char)) : List Char :=
  colors.flatten ++ txt ++ colorRESET

/-- Index of the first position where the two strings differ, scanning only up
to the length of the shorter one: the value of
`next((i for i, (s1, s2) in enumerate(zip(version, compare)) if s1 != s2), None)`
in `highlight_version_diff`. -/
def firstDiffIndex : List Char → List Char → Option Nat
  | s1 :: t1, s2 :: t2 =>
    if s1 ≠ s2 then some 0 else (firstDiffIndex t1 t2).map Nat.succ
  | _, _ => none

/-- `highlight_version_diff(version, compare, highlight=Colors.RED)`:
returns `version` unchanged if no position differs within the zipped length,
otherwise `version[:i] + colored(version[i:], highlight)`. -/
def highlight_version_diff (version compare : List Char)
    (highlight : List Char := colorRED) : List Char :=
  match firstDiffIndex version compare with
  | none => version
  | some i => version.take i ++ colored (version.drop i) [highlight]

/-- Property-side decoder used to state claims about highlighting: removes
every ANSI escape sequence (`ESC` up to and including the terminating `m`)
from a string.  Not part of the program. -/
def stripAnsiAux : Bool → List Char → List Char
  | _, [] => []
  | true, c :: rest =>
    if c = 'm' then stripAnsiAux false rest else stripAnsiAux true rest
  | false, c :: rest =>
    if c = escChar then stripAnsiAux true rest else c :: stripAnsiAux false rest

def stripAnsiCodes (l : List Char) : List Char := stripAnsiAux false l

theorem stripAnsiCodes_nil : stripAnsiCodes [] = [] := rfl

theorem stripAnsiCodes_append_of_not_mem {l : List Char} (r : List Char)
    (h : escChar ∉ l) :
    stripAnsiCodes (l ++ r) = l ++ stripAnsiCodes r := by
  induction l with
  | nil => rfl
  | cons c t ih =>
    have hc : c ≠ escChar := fun hceq => h (hceq ▸ List.mem_cons_self c t)
    have ht : escChar ∉ t := fun hmem => h (List.mem_cons_of_mem c hmem)
    show stripAnsiAux false (c :: (t ++ r)) = c :: t ++ stripAnsiCodes r
    rw [stripAnsiAux, if_neg hc]
    exact congrArg (c :: ·) (ih ht)

theorem stripAnsiCodes_of_not_mem {l : List Char} (h : escChar ∉ l) :
    stripAnsiCodes l = l := by
  have hl := stripAnsiCodes_append_of_not_mem (l := l) [] h
  simpa [stripAnsiCodes_nil] using hl

theorem stripAnsiCodes_red (r : List Char) :
    stripAnsiCodes (colorRED ++ r) = stripAnsiCodes r := rfl

theorem stripAnsiCodes_reset (r : List Char) :
    stripAnsiCodes (colorRESET ++ r) = stripAnsiCodes r := rfl

theorem firstDiffIndex_self (v : List Char) : firstDiffIndex v v = none := by
  induction v with
  | nil => rfl
  | cons c t ih => simp [firstDiffIndex, ih]

/-- Modelled from the spec: `Version` (§3) from the missing `version` module —
an ordered sequence of numeric release components, an optional pre-release
label, and an optional build suffix that never influences ordering. -/
structure Version where
  components : List Nat
  prerelease : Option (List Char) := none
  build : Option (List Char) := none
deriving DecidableEq

/-- Modelled from the spec: ordering on numeric component sequences (§3) —
shorter sequences are zero-padded for comparison. -/
def cmpZeroPad : List Nat → Ordering
  | [] => .eq
  | b :: bs =>
    match compare 0 b with
    | .eq => cmpZeroPad bs
    | o => o

def cmpComponents : List Nat → List Nat → Ordering
  | [], bs => cmpZeroPad bs
  | a :: as, [] =>
    match compare a 0 with
    | .eq => cmpComponents as []
    | o => o
  | a :: as, b :: bs =>
    match compare a b with
    | .eq => cmpComponents as bs
    | o => o

/-- Lexicographic comparison of character lists (Python string comparison by
code points), used for pre-release labels. -/
def cmpChars : List Char → List Char → Ordering
  | [], [] => .eq
  | [], _ :: _ => .lt
  | _ :: _, [] => .gt
  | a :: as, b :: bs =>
    match compare a b with
    | .eq => cmpChars as bs
    | o => o

/-- Modelled from the spec: pre-release ordering (§3) — a pre-release sorts
before the release with the same numeric components; build metadata is
ignored. -/
def cmpPrerelease : Option (List Char) → Option (List Char) → Ordering
  | none, none => .eq
  | some _, none => .lt
  | none, some _ => .gt
  | some a, some b => cmpChars a b

/-- Modelled from the spec: total order on `Version` (§3, §4.1 `compare`) —
first by zero-padded numeric components, then by pre-release. -/
def Version.cmp (a b : Version) : Ordering :=
  match cmpComponents a.components b.components with
  | .eq => cmpPrerelease a.prerelease b.prerelease
  | o => o

/-- Modelled from the spec: `VersionLike` (§3) — either a concrete `Version`
or an opaque non-semantic string. -/
inductive VersionLike where
  | semantic (v : Version)
  | opaqueStr (s : List Char)
deriving DecidableEq

/-- Modelled from the spec: `VersionRange` (§3) — a constraint with a
satisfaction test on `Version` plus its textual form (for `str`). -/
structure VersionRange where
  sat : Version → Bool
  repr : List Char

/-- Modelled from the spec: `VersionLikeOrRange` (§3) — discriminated union
of `VersionLike` and `VersionRange`. -/
inductive VersionLikeOrRange where
  | like (v : VersionLike)
  | range (r : VersionRange)

/-- `VersionPart` — the enumeration {MAJOR, MINOR, PATCH} (§3). -/
inductive VersionPart where
  | major
  | minor
  | patch
deriving DecidableEq

/-- Modelled from the spec: `is_semantic_version` (§4.1) — true iff the value
is a concrete `Version`, not an opaque string. -/
def isSemanticVersionLike : VersionLike → Bool
  | .semantic _ => true
  | .opaqueStr _ => false

/-- Modelled from the spec: `is_semantic_version` applied to an optional
current value (`None` is not semantic). -/
def is_semantic_version : Option VersionLike → Bool
  | none => false
  | some v => isSemanticVersionLike v

/-- Maximum of a nonempty list of versions under `Version.cmp`, keeping the
earlier element on ties (deterministic by input order, §3). -/
def maxVersion (x : Version) (xs : List Version) : Version :=
  xs.foldl (fun acc v => if Version.cmp v acc = .gt then v else acc) x

/-- Modelled from the spec: `VersionRange.max_satisfying` (§3) — filter the
candidates to semantic versions satisfying the range and return the maximum
by version ordering, or none.  The source spells the method `max_satifies`
(`__main__.py` line 81). -/
def VersionRange.max_satifies (r : VersionRange) (candidates : List VersionLike) :
    Option VersionLike :=
  match candidates.filterMap (fun c =>
      match c with
      | .semantic v => if r.sat v then some v else none
      | .opaqueStr _ => none) with
  | [] => none
  | x :: xs => some (.semantic (maxVersion x xs))

/-- Numeric component at index `i`, zero when absent (zero-padding, §3). -/
def Version.comp (v : Version) (i : Nat) : Nat := v.components.getD i 0

/-- Modelled from the spec: ceiling test of `find_update` step 3 (§4.2) —
MAJOR allows any change, MINOR forbids a major-component change, PATCH
forbids major- and minor-component changes. -/
def allowedByTarget (current cand : Version) : VersionPart → Bool
  | .major => true
  | .minor => cand.comp 0 = current.comp 0
  | .patch => cand.comp 0 = current.comp 0 && cand.comp 1 = current.comp 1

/-- True iff the version carries a pre-release label. -/
def Version.isPrerelease (v : Version) : Bool := v.prerelease.isSome

/-- Modelled from the spec: `find_update` (§4.2 steps 2–4) from the missing
`version` module — a non-semantic current value yields no update; otherwise
the maximum semantic available version that is strictly greater than the
current one, within the target ceiling, and not a pre-release unless the
current version is one. -/
def find_update (current : VersionLike) (versions : List VersionLike)
    (target : VersionPart) : Option Version :=
  match current with
  | .opaqueStr _ => none
  | .semantic cur =>
    match versions.filterMap (fun c =>
        match c with
        | .semantic v =>
          if Version.cmp v cur = .gt && allowedByTarget cur v target &&
              (!v.isPrerelease || cur.isPrerelease) then some v else none
        | .opaqueStr _ => none) with
    | [] => none
    | x :: xs => some (maxVersion x xs)

/-- Modelled from the spec: `str(Version)` — dot-joined numeric components
with optional `-prerelease` and `+build` suffixes. -/
def Version.str (v : Version) : List Char :=
  (List.intersperse "." ((v.components.map (fun n => toString n)))).foldr
      (fun s acc => s.data ++ acc) []
    ++ (match v.prerelease with
        | none => []
        | some p => '-' :: p)
    ++ (match v.build with
        | none => []
        | some b => '+' :: b)

/-- `str` of a `VersionLike`: the version rendering, or the opaque string. -/
def VersionLike.str : VersionLike → List Char
  | .semantic v => v.str
  | .opaqueStr s => s

/-- `str` of a `VersionLikeOrRange`. -/
def VersionLikeOrRange.str : VersionLikeOrRange → List Char
  | .like v => v.str
  | .range r => r.repr

/-- Modelled from the spec: Python truthiness of a `VersionLike` — a
`Version` object is truthy; an opaque string is truthy iff non-empty. -/
def VersionLike.truthy : VersionLike → Bool
  | .semantic _ => true
  | .opaqueStr s => !s.isEmpty

/-- Python truthiness of the optional resolved current value, as tested by
`if current_version_resolved` in `run` (line 137). -/
def truthyOpt : Option VersionLike → Bool
  | none => false
  | some v => v.truthy

/-- `resolve_version(version_or_range, versions)` (`__main__.py` lines
75–82): a `VersionRange` is resolved via `max_satifies` over the semantic
subset of `versions`; anything else is returned as-is. -/
def resolve_version (version_or_range : VersionLikeOrRange)
    (versions : List VersionLike) : Option VersionLike :=
  match version_or_range with
  | .range r => r.max_satifies (versions.filter isSemanticVersionLike)
  | .like v => some v

/-- `", ".join(map(str, versions))` (`__main__.py` line 69). -/
def joinCommaStr (versions : List VersionLike) : List Char :=
  (List.intersperse (", ".data) (versions.map VersionLike.str)).flatten

/-- `str` of the optional resolved current value (Python renders `None` as
`"None"`, but the branch is only reached on semantic values). -/
def strOptVersionLike : Option VersionLike → List Char
  | none => "None".data
  | some v => v.str

/-- `text_update_column(current_version, update_version, versions)`
(`__main__.py` lines 63–72). -/
def text_update_column (current_version : Option VersionLike)
    (update_version : Option Version) (versions : List VersionLike) :
    List Char :=
  if !(is_semantic_version current_version) then
    joinCommaStr versions
  else
    match update_version with
    | some u => highlight_version_diff u.str (strOptVersionLike current_version)
    | none => strOptVersionLike current_version

/-- `RequirementRef` (§3): package name and declared constraint, as accessed
via `result.ref.package` / `result.ref.version` in `run`. -/
structure RequirementRef where
  package : String
  version : VersionLikeOrRange

/-- `SearchResult` (§3): a requirement reference paired with the available
versions found for it, as accessed via `result.ref` / `result.versions`. -/
structure SearchResult where
  ref : RequirementRef
  versions : List VersionLike

/-- The `update_version` computation in `run` (lines 135–139):
`find_update(current_version_resolved, result.versions, target=target) if
current_version_resolved else None`. -/
def computedUpdate (resolved : Option VersionLike) (versions : List VersionLike)
    (target : VersionPart) : Option Version :=
  match resolved with
  | some v => if v.truthy then find_update v versions target else none
  | none => none

/-- One printed report row of `run` (line 145–152), before column padding:
the three values passed to `format_str.format`. -/
structure Row where
  package : String
  versionStr : List Char
  updateCol : List Char
deriving DecidableEq

/-- The body of the `for result in sorted(results, ...)` loop in `run`
(lines 131–152) for a single result: `none` when the record is skipped
(`skip = is_semantic_version(current_version_resolved) and update_version is
None`), otherwise the printed row. -/
def processResult (target : VersionPart) (result : SearchResult) : Option Row :=
  if is_semantic_version (resolve_version result.ref.version result.versions)
      && (computedUpdate (resolve_version result.ref.version result.versions)
            result.versions target).isNone then
    none
  else
    some { package := result.ref.package,
           versionStr := result.ref.version.str,
           updateCol := text_update_column
             (resolve_version result.ref.version result.versions)
             (computedUpdate (resolve_version result.ref.version result.versions)
               result.versions target)
             result.versions }

/-- Comparison used by `sorted(results, key=lambda r: r.ref.package)`:
case-sensitive lexical order on the package name. -/
def searchLe (a b : SearchResult) : Prop := a.ref.package ≤ b.ref.package

instance : DecidableRel searchLe :=
  fun a b => inferInstanceAs (Decidable (a.ref.package ≤ b.ref.package))

instance : IsTotal SearchResult searchLe :=
  ⟨fun a b => le_total a.ref.package b.ref.package⟩

instance : IsTrans SearchResult searchLe := ⟨fun _ _ _ => le_trans⟩

/-- `sorted(results, key=lambda r: r.ref.package)` (line 131), as a stable
sort by package name. -/
def sortResults (results : List SearchResult) : List SearchResult :=
  List.insertionSort searchLe results

/-- `cols_package = max(0, 10, *(len(str(r.ref.package)) for r in results)) + 1`
(line 126). -/
def colsPackage (results : List SearchResult) : Nat :=
  (results.map (fun r => r.ref.package.length)).foldl max (max 0 10) + 1

/-- `cols_version = max(0, 10, *(len(str(r.ref.version)) for r in results))`
(line 127). -/
def colsVersion (results : List SearchResult) : Nat :=
  (results.map (fun r => r.ref.version.str.length)).foldl max (max 0 10)

/-- Python `"{:<{w}}".format(s)`: left-justify with spaces to width `w`. -/
def padRight (s : List Char) (w : Nat) : List Char :=
  s ++ List.replicate (w - s.length) ' '

/-- Python `"{:>{w}}".format(s)`: right-justify with spaces to width `w`. -/
def padLeft (s : List Char) (w : Nat) : List Char :=
  List.replicate (w - s.length) ' ' ++ s

/-- One line printed by `run`:
`"{:<{cols_package}} {:>{cols_version}}  →  {}"` (line 129) applied to a
row. -/
def renderLine (cp cv : Nat) (row : Row) : List Char :=
  padRight row.package.data cp ++ [' '] ++ padLeft row.versionStr cv
    ++ "  →  ".data ++ row.updateCol

/-- The rows `run` prints, in order: the sorted results with the skipped
records dropped (lines 131–152). -/
def reportRows (target : VersionPart) (results : List SearchResult) : List Row :=
  (sortResults results).filterMap (processResult target)

/-- The full printed report of `run`: each surviving row rendered with the
column widths computed from the (unsorted) collected results. -/
def fullReport (target : VersionPart) (results : List SearchResult) :
    List (List Char) :=
  (reportRows target results).map
    (renderLine (colsPackage results) (colsVersion results))

/-- Division as used inside `show` (lines 95–96): defined only when the
divisor is nonzero (Python would raise `ZeroDivisionError`). -/
def safeDiv (a b : Nat) : Option Nat :=
  if b = 0 then none else some (a / b)

/-- `str(n)` for a natural number. -/
def natStr (n : Nat) : List Char := (toString n).data

/-- The progress line written by `show(j)` (line 97). -/
def barLine (desc : List Char) (size nbar j total perc : Nat) : List Char :=
  desc ++ ['['] ++ List.replicate nbar '=' ++ List.replicate (size - nbar) '-'
    ++ "] ".data ++ natStr j ++ ['/'] ++ natStr total ++ [' '] ++ natStr perc
    ++ "%\r".data

/-- `show(j)` of `async_progressbar` (lines 93–98): `none` when the
`assert 0 <= j <= total` fails (`j : Nat`, so only `j ≤ total` can fail) or
when a division by zero would occur; otherwise the written line.  The
`total > 0` guards route `total = 0` to the fixed values `size` and `100`. -/
def showLine (desc : List Char) (size total j : Nat) : Option (List Char) :=
  if j ≤ total then
    (if total > 0 then safeDiv (size * j) total else some size).bind (fun nbar =>
      (if total > 0 then safeDiv (100 * j) total else some 100).bind (fun perc =>
        some (barLine desc size nbar j total perc)))
  else none

/-- The `async for` loop of `async_progressbar` (lines 102–105) started at
counter value `i`.  Each iteration yields its item and then calls
`show(i + 1)`; when that call fails (the `assert 0 <= j <= total` raises),
the `AssertionError` propagates out of the generator, so the item already
yielded in this iteration stands but the stream aborts there.  Returns the
yielded items and the counter values passed to `show` by the loop. -/
def pbLoop (desc : List Char) (size total : Nat) :
    List α → Nat → List α × List Nat
  | [], _ => ([], [])
  | x :: xs, i =>
    if (showLine desc size total (i + 1)).isSome then
      (x :: (pbLoop desc size total xs (i + 1)).1,
        (i + 1) :: (pbLoop desc size total xs (i + 1)).2)
    else
      ([x], [i + 1])

/-- `async_progressbar(it, total, desc, size, keep, file)` (lines 85–108)
over a finite stream `it`: the yielded items, the counter values passed to
`show` (starting with the initial `show(0)`, which always succeeds because
`total : Nat` makes `0 ≤ total` hold), and the outcome of each `show` call.
A failing `show(i)` aborts the generator, truncating the yielded items (see
`pbLoop`).  The trailing `"\n" if keep else "\r"` write affects only the
display stream, never the yielded items. -/
def async_progressbar (it : List α) (total : Nat) (desc : List Char := [])
    (size : Nat := 20) (keep : Bool := false) :
    List α × List Nat × List (Option (List Char)) :=
  ((pbLoop desc size total it 0).1, 0 :: (pbLoop desc size total it 0).2,
    (0 :: (pbLoop desc size total it 0).2).map (showLine desc size total))

/-- A Python exception reaching the `try` block of `main` (lines 234–245). -/
inductive PyExc where
  | keyboardInterrupt
  | otherExc (msg : List Char)

/-- The `try`/`except KeyboardInterrupt` wrapper of `main` (lines 234–245)
around the outcome of `run`: a completed run returns its report, a
`KeyboardInterrupt` is swallowed (the `...` body) and `main` returns
normally with no report, and any other exception propagates. -/
def mainCatch (runOutcome : Except PyExc (List (List Char))) :
    Except PyExc (Option (List (List Char))) :=
  match runOutcome with
  | .ok report => .ok (some report)
  | .error .keyboardInterrupt => .ok none
  | .error e => .error e

theorem showLine_isSome_of_le (desc : List Char) (size total j : Nat)
    (h : j ≤ total) : (showLine desc size total j).isSome := by
  unfold showLine
  rw [if_pos h]
  by_cases ht : total > 0
  · have hne : total ≠ 0 := Nat.pos_iff_ne_zero.mp ht
    simp [ht, safeDiv, hne]
  · simp [ht]

theorem pbLoop_of_le (desc : List Char) (size total : Nat) (it : List α) :
    ∀ i : Nat, i + it.length ≤ total →
      pbLoop desc size total it i = (it, List.range' (i + 1) it.length) := by
  induction it with
  | nil => intro i h; rfl
  | cons x xs ih =>
    intro i h
    have hlen : xs.length + 1 = (x :: xs).length := rfl
    have hs : (showLine desc size total (i + 1)).isSome :=
      showLine_isSome_of_le desc size total (i + 1) (by rw [← hlen] at h; omega)
    have hrec := ih (i + 1) (by rw [← hlen] at h; omega)
    simp [pbLoop, hs, hrec, List.range'_succ]

theorem async_progressbar_counts (it : List α) (total : Nat) (desc : List Char)
    (size : Nat) (keep : Bool) (h : it.length ≤ total) :
    (async_progressbar it total desc size keep).2.1 = List.range (it.length + 1) := by
  show 0 :: (pbLoop desc size total it 0).2 = List.range (it.length + 1)
  rw [pbLoop_of_le desc size total it 0 (by omega), List.range_eq_range',
    List.range'_succ]

/-- C7: a `KeyboardInterrupt` during the resolution run is caught by the
`try`/`except KeyboardInterrupt` in `main` (lines 234–245): the program
terminates normally, without raising and without producing a report. -/
theorem main_keyboard_interrupt_clean_exit :
    mainCatch (Except.error PyExc.keyboardInterrupt) = Except.ok none := rfl

/-- C9 counterexample: unconditional item preservation is false — with
`total = 0` and a two-item iterator, `show(1)` fails its `assert` inside the
generator after the first yield, so the stream aborts and only one item is
yielded. -/
theorem async_progressbar_truncates_counterexample :
    (async_progressbar ["a", "b"] 0 [] 20 false).1 ≠ ["a", "b"] := by decide

/-- C9 (amended): `async_progressbar` is an item-preserving wrapper provided
the wrapped iterator yields at most `total` items: then every `show` call
succeeds and the yielded sequence equals the wrapped iterator's sequence, in
order and length, whatever the `desc`, `size` and `keep` display parameters
are.  Without that bound the assertion in `show` aborts the generator and
truncates the stream. -/
theorem async_progressbar_preserves_items (it : List α) (total : Nat)
    (desc : List Char) (size : Nat) (keep : Bool) (h : it.length ≤ total) :
    (async_progressbar it total desc size keep).1 = it := by
  show (pbLoop desc size total it 0).1 = it
  rw [pbLoop_of_le desc size total it 0 (by omega)]

theorem async_progressbar_preserves_items_witness :
    (async_progressbar ["a", "b"] 2 "x".data 5 true).1 = ["a", "b"] :=
  async_progressbar_preserves_items ["a", "b"] 2 "x".data 5 true (by decide)

/-- C3: the progress count passed to `show` starts at 0, increases by exactly
1 per consumed result, and reaches `N` exactly at the end: when the fetch
stream delivers one result per filtered reference (`it.length = N`, which the
spec guarantees even for timed-out or failed lookups), the sequence of counts
is `0, 1, …, N`. -/
theorem async_progressbar_count_range (it : List α) (total : Nat)
    (desc : List Char) (size : Nat) (keep : Bool) (h : it.length = total) :
    (async_progressbar it total desc size keep).2.1 = List.range (total + 1) := by
  rw [async_progressbar_counts it total desc size keep (le_of_eq h), h]

theorem async_progressbar_count_range_witness :
    (async_progressbar ["a", "b"] 2 [] 20 false).2.1 = List.range 3 :=
  async_progressbar_count_range ["a", "b"] 2 [] 20 false (by decide)

/-- C10: when the wrapped iterator yields at most `total` items, every
`show(j)` call made by `async_progressbar` succeeds — the assertion
`0 <= j <= total` holds (with `j` a natural number the lower bound is
automatic), and no division by zero occurs because the `total > 0` guard
routes `total = 0` to the fixed values `size` and `100`. -/
theorem async_progressbar_show_safe (it : List α) (total : Nat)
    (desc : List Char) (size : Nat) (keep : Bool) (h : it.length ≤ total) :
    ∀ o ∈ (async_progressbar it total desc size keep).2.2, o.isSome := by
  intro o ho
  have hmem : o ∈ (0 :: (pbLoop desc size total it 0).2).map
      (showLine desc size total) := ho
  rw [pbLoop_of_le desc size total it 0 (by omega)] at hmem
  obtain ⟨j, hj, rfl⟩ := List.mem_map.mp hmem
  apply showLine_isSome_of_le
  rcases List.mem_cons.mp hj with h0 | hr
  · omega
  · obtain ⟨k, hk, rfl⟩ := List.mem_range'.mp hr
    omega

theorem async_progressbar_show_safe_witness :
    ((async_progressbar ["a"] 3 [] 20 false).2.2).all Option.isSome = true :=
  List.all_eq_true.mpr
    (async_progressbar_show_safe ["a"] 3 [] 20 false (by decide))

theorem stripAnsiCodes_reset_nil : stripAnsiCodes colorRESET = [] := by
  have h := stripAnsiCodes_reset []
  simpa [stripAnsiCodes_nil] using h

/-- C8: `highlight_version_diff` only inserts ANSI color escape sequences —
for any `version` free of the escape character, stripping the escape
sequences from the result gives back exactly `version`; and when no position
differs within the zipped length (in particular when `version = compare`, or
when `version` extends `compare` without differing on the common prefix) the
result is `version` unchanged, with no highlighting. -/
theorem highlight_version_diff_spec (version compare : List Char)
    (h : escChar ∉ version) :
    stripAnsiCodes (highlight_version_diff version compare) = version
    ∧ (firstDiffIndex version compare = none →
        highlight_version_diff version compare = version)
    ∧ (version = compare → highlight_version_diff version compare = version) := by
  refine ⟨?_, ?_, ?_⟩
  · unfold highlight_version_diff
    cases hfd : firstDiffIndex version compare with
    | none => exact stripAnsiCodes_of_not_mem h
    | some i =>
      show stripAnsiCodes (version.take i ++ colored (version.drop i) [colorRED])
        = version
      have htake : escChar ∉ version.take i :=
        fun hm => h (List.take_subset i version hm)
      have hdrop : escChar ∉ version.drop i :=
        fun hm => h (List.drop_subset i version hm)
      have hcol : colored (version.drop i) [colorRED]
          = colorRED ++ (version.drop i ++ colorRESET) := by
        simp [colored]
      rw [hcol, stripAnsiCodes_append_of_not_mem _ htake, stripAnsiCodes_red,
        stripAnsiCodes_append_of_not_mem _ hdrop, stripAnsiCodes_reset_nil,
        List.append_nil, List.take_append_drop]
  · intro hnone
    unfold highlight_version_diff
    rw [hnone]
  · intro heq
    unfold highlight_version_diff
    rw [heq, firstDiffIndex_self]

theorem highlight_version_diff_spec_witness :
    stripAnsiCodes (highlight_version_diff "1.2.3".data "1.2.4".data)
      = "1.2.3".data :=
  (highlight_version_diff_spec "1.2.3".data "1.2.4".data (by decide)).1

/-- C6: in `text_update_column`, a record whose resolved current value is not
a semantic version gets the full comma-joined available-version list in the
update column; a semantic current value with an available update gets the
update version (highlighted against the current one) instead. -/
theorem text_update_column_spec (current : Option VersionLike)
    (update : Option Version) (versions : List VersionLike) :
    (is_semantic_version current = false →
      text_update_column current update versions = joinCommaStr versions)
    ∧ (∀ u : Version, is_semantic_version current = true → update = some u →
        text_update_column current update versions
          = highlight_version_diff u.str (strOptVersionLike current)) := by
  constructor
  · intro hsem
    unfold text_update_column
    rw [hsem]
    rfl
  · intro u hsem hupd
    unfold text_update_column
    rw [hsem, hupd]
    rfl

theorem text_update_column_spec_witness :
    text_update_column (some (.opaqueStr "main".data)) none
        [.semantic ⟨[1, 2], none, none⟩, .opaqueStr "dev".data]
      = joinCommaStr [.semantic ⟨[1, 2], none, none⟩, .opaqueStr "dev".data] :=
  (text_update_column_spec (some (.opaqueStr "main".data)) none
    [.semantic ⟨[1, 2], none, none⟩, .opaqueStr "dev".data]).1 (by decide)

/-- C2: for a requirement declared with a `VersionRange`, `resolve_version`
computes `max_satifies` over the available set restricted to its semantic
versions; and when that resolution yields `none`, the update computation of
`run` short-circuits to `None` without invoking `find_update` (the
`if current_version_resolved` guard). -/
theorem resolve_version_range_spec (r : VersionRange)
    (versions : List VersionLike) (target : VersionPart) :
    resolve_version (.range r) versions
      = r.max_satifies (versions.filter isSemanticVersionLike)
    ∧ (resolve_version (.range r) versions = none →
        computedUpdate (resolve_version (.range r) versions) versions target
          = none) := by
  constructor
  · rfl
  · intro hnone
    rw [hnone]
    rfl

theorem resolve_version_range_spec_witness :
    resolve_version (.range ⟨fun _ => false, "^9".data⟩)
        [.semantic ⟨[1], none, none⟩]
      = none
    ∧ computedUpdate
        (resolve_version (.range ⟨fun _ => false, "^9".data⟩)
          [.semantic ⟨[1], none, none⟩])
        [.semantic ⟨[1], none, none⟩] .major = none := by
  have h := resolve_version_range_spec ⟨fun _ => false, "^9".data⟩
    [.semantic ⟨[1], none, none⟩] .major
  have hnone : resolve_version
      (.range (⟨fun _ => false, "^9".data⟩ : VersionRange))
      [.semantic ⟨[1], none, none⟩] = none := rfl
  exact ⟨hnone, h.2 hnone⟩

/-- C1: a collected result is dropped from the report exactly when its
resolved current version is semantic and the computed update is `None`
(the `skip` test of `run`, line 141); every retained record's row appears in
the printed report. -/
theorem report_skip_iff (target : VersionPart) (results : List SearchResult)
    (r : SearchResult) (hmem : r ∈ results) :
    (processResult target r = none ↔
      (is_semantic_version (resolve_version r.ref.version r.versions) = true
        ∧ computedUpdate (resolve_version r.ref.version r.versions)
            r.versions target = none))
    ∧ (∀ row, processResult target r = some row →
        row ∈ reportRows target results) := by
  constructor
  · unfold processResult
    generalize is_semantic_version (resolve_version r.ref.version r.versions) = s
    generalize computedUpdate (resolve_version r.ref.version r.versions)
      r.versions target = u
    cases s <;> cases u <;> simp
  · intro row hrow
    have hmem' : r ∈ sortResults results :=
      (List.perm_insertionSort searchLe results).mem_iff.mpr hmem
    exact List.mem_filterMap.mpr ⟨r, hmem', hrow⟩

theorem report_skip_iff_witness :
    ∃ row, processResult .major
        ⟨⟨"zlib", .like (.opaqueStr "main".data)⟩, []⟩ = some row
      ∧ row ∈ reportRows .major [⟨⟨"zlib", .like (.opaqueStr "main".data)⟩, []⟩] := by
  have h := report_skip_iff .major
    [⟨⟨"zlib", .like (.opaqueStr "main".data)⟩, []⟩]
    ⟨⟨"zlib", .like (.opaqueStr "main".data)⟩, []⟩ (List.mem_singleton.mpr rfl)
  refine ⟨⟨"zlib", "main".data, []⟩, rfl, h.2 _ rfl⟩

theorem processResult_package (target : VersionPart) (r : SearchResult)
    (row : Row) (h : processResult target r = some row) :
    row.package = r.ref.package := by
  unfold processResult at h
  split at h
  · exact absurd h (by simp)
  · exact (congrArg Row.package (Option.some.inj h)).symm

/-- C4: the report rows are emitted in ascending order of package name under
the case-sensitive lexical string order — the rows survive `sorted(results,
key=lambda r: r.ref.package)` with their package names unchanged. -/
theorem report_rows_sorted (target : VersionPart) (results : List SearchResult) :
    List.Pairwise (fun a b : Row => a.package ≤ b.package)
      (reportRows target results) := by
  unfold reportRows
  rw [List.pairwise_filterMap]
  have hs : List.Pairwise searchLe (sortResults results) :=
    List.sorted_insertionSort searchLe results
  refine hs.imp ?_
  intro a b hab x hx y hy
  rw [processResult_package target a x (Option.mem_def.mp hx),
    processResult_package target b y (Option.mem_def.mp hy)]
  exact hab

/-- Strict comparison by package name. -/
def searchLt (a b : SearchResult) : Prop := a.ref.package < b.ref.package

theorem pairwise_lt_of_le_nodup {l : List SearchResult}
    (hle : List.Pairwise searchLe l)
    (hnd : (l.map (fun r => r.ref.package)).Nodup) :
    List.Pairwise searchLt l := by
  have hne : List.Pairwise
      (fun a b : SearchResult => a.ref.package ≠ b.ref.package) l :=
    List.pairwise_map.mp hnd
  exact (hle.and hne).imp (fun h => lt_of_le_of_ne h.1 h.2)

/-- C5: with unique package names and fixed per-package version data, the
printed report does not depend on the completion order of the concurrent
lookups — any permutation of the collected results produces the identical
rendered report (rows and column widths alike). -/
theorem report_order_independent (target : VersionPart)
    (results₁ results₂ : List SearchResult) (hperm : results₁.Perm results₂)
    (hnodup : (results₂.map (fun r => r.ref.package)).Nodup) :
    fullReport target results₁ = fullReport target results₂ := by
  have hs₁ : List.Pairwise searchLe (sortResults results₁) :=
    List.sorted_insertionSort searchLe results₁
  have hs₂ : List.Pairwise searchLe (sortResults results₂) :=
    List.sorted_insertionSort searchLe results₂
  have hp : (sortResults results₁).Perm (sortResults results₂) :=
    ((List.perm_insertionSort searchLe results₁).trans hperm).trans
      (List.perm_insertionSort searchLe results₂).symm
  have hnd₂ : ((sortResults results₂).map (fun r => r.ref.package)).Nodup :=
    (List.Perm.nodup_iff
      ((List.perm_insertionSort searchLe results₂).map _)).mpr hnodup
  have hnd₁ : ((sortResults results₁).map (fun r => r.ref.package)).Nodup :=
    (List.Perm.nodup_iff (hp.map _)).mpr hnd₂
  have hlt₁ := pairwise_lt_of_le_nodup hs₁ hnd₁
  have hlt₂ := pairwise_lt_of_le_nodup hs₂ hnd₂
  haveI : IsAntisymm SearchResult searchLt :=
    ⟨fun a b h1 h2 => absurd h2 (not_lt.mpr (le_of_lt h1))⟩
  have hsorteq : sortResults results₁ = sortResults results₂ :=
    List.eq_of_perm_of_sorted hp hlt₁ hlt₂
  haveI : RightCommutative (fun (b a : Nat) => max b a) :=
    ⟨fun b a₁ a₂ => Max.right_comm b a₁ a₂⟩
  have hcp : colsPackage results₁ = colsPackage results₂ := by
    unfold colsPackage
    rw [List.Perm.foldl_eq (hperm.map (fun r => r.ref.package.length)) (max 0 10)]
  have hcv : colsVersion results₁ = colsVersion results₂ := by
    unfold colsVersion
    rw [List.Perm.foldl_eq
      (hperm.map (fun r => r.ref.version.str.length)) (max 0 10)]
  unfold fullReport reportRows
  rw [hsorteq, hcp, hcv]

theorem report_order_independent_witness :
    fullReport .major
        [⟨⟨"boost", .like (.semantic ⟨[1], none, none⟩)⟩, []⟩,
         ⟨⟨"zlib", .like (.opaqueStr "main".data)⟩, []⟩]
      = fullReport .major
        [⟨⟨"zlib", .like (.opaqueStr "main".data)⟩, []⟩,
         ⟨⟨"boost", .like (.semantic ⟨[1], none, none⟩)⟩, []⟩] :=
  report_order_independent .major _ _
    (List.Perm.swap
      (⟨⟨"zlib", .like (.opaqueStr "main".data)⟩, []⟩ : SearchResult)
      (⟨⟨"boost", .like (.semantic ⟨[1], none, none⟩)⟩, []⟩ : SearchResult) [])
    (by decide)

end ConanCheckUpdates
